import Mathlib

/-!
# go-examples-echo: the `users` CRUD handlers of `cmd/main.go`

A shallow embedding of the five echo handlers (`getUsers`, `getUser`,
`createUser`, `updateUser`, `deleteUser`) together with the pieces of the
Go runtime and of SQLite they call:

* `strconv.Atoi` (Go standard library, 64-bit `int`), transcribed with its
  fast path and its `ParseInt`/`ParseUint` slow path;
* the `users` table as a list of rows in scan order plus the
  `sqlite_sequence` counter of the `AUTOINCREMENT` key;
* the five SQL statements as functions on that state.

Go strings are byte strings, so query and path parameters are `List UInt8`.
-/

namespace GoExamplesEcho

/-! ## Go strings -/

/-- A Go `string`: an arbitrary sequence of bytes. -/
abbrev GoString := List UInt8

/-- The bytes (UTF-8) of a string literal. -/
def bytes (s : String) : GoString := s.toList.flatMap String.utf8EncodeChar

/-! ## `strconv.Atoi` -/

/-- The two sentinel errors a `*strconv.NumError` can wrap here. -/
inductive NumError
  | ErrSyntax
  | ErrRange
deriving DecidableEq, Repr

/-- Go constant `strconv.IntSize` on a 64-bit target. -/
def intSize : Nat := 64

/-- Two's-complement wrap-around of a mathematical integer into `int64`. -/
def wrapInt64 (x : Int) : Int := (x + 2 ^ 63) % 2 ^ 64 - 2 ^ 63

/-- The digit loop of the fast path of `Atoi`:
`ch -= '0'; if ch > 9 { return 0, syntaxError }; n = n*10 + int(ch)`.
The subtraction is on a `byte`, hence modulo 256.  At most 18 bytes are fed
to this loop, so `n` stays below `10^18` and the `int` never overflows. -/
def atoiLoop : List UInt8 → Int → Option Int
  | [], n => some n
  | ch :: rest, n =>
    let ch := (ch.toNat + 256 - 48) % 256
    if ch > 9 then none else atoiLoop rest (n * 10 + (ch : Int))

/-- The fast path of `Atoi`, taken when `0 < len(s) < 19`; the empty case is
never reached from `Atoi` (in Go `s[0]` is guarded by `0 < sLen`). -/
def atoiFast (s0 : GoString) : Int × Option NumError :=
  match s0 with
  | [] => (0, some NumError.ErrSyntax)
  | c :: rest =>
    let signed := c.toNat = 45 ∨ c.toNat = 43
    let s := if signed then rest else s0
    if signed ∧ s.length < 1 then (0, some NumError.ErrSyntax)
    else
      match atoiLoop s 0 with
      | none => (0, some NumError.ErrSyntax)
      | some n => (if c.toNat = 45 then -n else n, none)

/-- The helper `lower(c) = c | ('x' - 'X')` of `strconv`. -/
def lower (c : Nat) : Nat := c ||| 32

/-- The constant `maxUint64`. -/
def maxUint64 : Nat := 2 ^ 64 - 1

/-- The overflow guard of `ParseUint` for base 10: `maxUint64/10 + 1`. -/
def cutoff10 : Nat := maxUint64 / 10 + 1

/-- The value `maxVal = 1<<64 - 1` of `ParseUint` for `bitSize = 64`. -/
def maxVal : Nat := 2 ^ 64 - 1

/-- One iteration of the loop of `ParseUint` once the digit `d` is known:
the checks `d >= base`, `n >= cutoff`, and `n1 < n || n1 > maxVal`.
The result is `Sum.inl` of the value returned from inside the loop, or
`Sum.inr` of the updated accumulator. -/
def parseUintStep (n d : Nat) : (Nat × Option NumError) ⊕ Nat :=
  if d ≥ 10 then Sum.inl (0, some NumError.ErrSyntax)
  else if n ≥ cutoff10 then Sum.inl (maxVal, some NumError.ErrRange)
  else
    let n := (n * 10) % 2 ^ 64
    let n1 := (n + d) % 2 ^ 64
    if n1 < n ∨ n1 > maxVal then Sum.inl (maxVal, some NumError.ErrRange)
    else Sum.inr n1

/-- The digit a byte stands for in `ParseUint` with `base = 10` (so the
underscore case is off): `'0'..'9'`, letters via `lower`, anything else is
a syntax error (`none`). -/
def parseUintDigit (c : Nat) : Option Nat :=
  if 48 ≤ c ∧ c ≤ 57 then some (c - 48)
  else if 97 ≤ lower c ∧ lower c ≤ 122 then some (lower c - 97 + 10)
  else none

/-- The loop of `ParseUint(s, 10, 64)`. -/
def parseUintLoop : List UInt8 → Nat → Nat × Option NumError
  | [], n => (n, none)
  | c :: rest, n =>
    match parseUintDigit c.toNat with
    | none => (0, some NumError.ErrSyntax)
    | some d =>
      match parseUintStep n d with
      | Sum.inl r => r
      | Sum.inr n1 => parseUintLoop rest n1

/-- Go function `strconv.ParseUint(s, 10, 0)` on a 64-bit target. -/
def ParseUint (s : GoString) : Nat × Option NumError :=
  if s = [] then (0, some NumError.ErrSyntax) else parseUintLoop s 0

/-- The second half of `ParseInt`, from the check of the error of
`ParseUint` on: `r` is what `ParseUint` returned and `neg` whether a minus
sign was picked off.  The conversions `int64(un)` and `n = -n` wrap. -/
def parseIntRange (neg : Bool) (r : Nat × Option NumError) : Int × Option NumError :=
  if r.2 ≠ none ∧ r.2 ≠ some NumError.ErrRange then (0, r.2)
  else
    let un := r.1
    let cutoff : Nat := 2 ^ 63
    if neg = false ∧ un ≥ cutoff then ((cutoff : Int) - 1, some NumError.ErrRange)
    else if neg = true ∧ un > cutoff then (-(cutoff : Int), some NumError.ErrRange)
    else
      let n := wrapInt64 (un : Int)
      (if neg = true then wrapInt64 (-n) else n, none)

/-- Go function `strconv.ParseInt(s, 10, 0)` on a 64-bit target: the value and the
error (`none` for `nil`). -/
def ParseInt (s0 : GoString) : Int × Option NumError :=
  match s0 with
  | [] => (0, some NumError.ErrSyntax)
  | c :: rest =>
    let neg : Bool := decide (c.toNat = 45)
    let s := if c.toNat = 43 ∨ c.toNat = 45 then rest else s0
    parseIntRange neg (ParseUint s)

/-- Go function `strconv.Atoi` on a 64-bit target: the `int` and the error it returns
(`none` for `nil`). -/
def Atoi (s : GoString) : Int × Option NumError :=
  let sLen := s.length
  if intSize = 64 ∧ 0 < sLen ∧ sLen < 19 then atoiFast s
  else ParseInt s

/-! ## A reading of "numeric" for query strings

These two definitions follow the wording of the specification ("non-numeric",
"parses to an integer"), not the code: a string is numeric when it is an
optional sign followed by at least one ASCII digit, and it then denotes the
mathematical integer written. -/

/-- An ASCII decimal digit. -/
def isDigit (c : UInt8) : Bool := decide (48 ≤ c.toNat ∧ c.toNat ≤ 57)

/-- Horner evaluation of a run of digits, starting from `n`. -/
def digitsValue : List UInt8 → Nat → Nat
  | [], n => n
  | c :: rest, n => digitsValue rest (n * 10 + (c.toNat - 48))

/-- The natural number written by a non-empty run of digits. -/
def unsignedDecimal (s : GoString) : Option Nat :=
  if s ≠ [] ∧ s.all isDigit = true then some (digitsValue s 0) else none

/-- The integer a query string denotes, `none` when it is non-numeric
(which includes the empty string of an absent parameter). -/
def numericValue (s : GoString) : Option Int :=
  match s with
  | [] => none
  | c :: rest =>
    if c.toNat = 43 then Option.map (fun n : Nat => (n : Int)) (unsignedDecimal rest)
    else if c.toNat = 45 then Option.map (fun n : Nat => -(n : Int)) (unsignedDecimal rest)
    else Option.map (fun n : Nat => (n : Int)) (unsignedDecimal s)

/-- What `Atoi` may return on a body `s` whose sign has been picked off
(`neg` for a minus sign), in terms of the number the body writes. -/
def BodySpec (neg : Bool) (s : GoString) (r : Int × Option NumError) : Prop :=
  (∃ v : Nat, unsignedDecimal s = some v ∧
      -2 ^ 63 ≤ (if neg = true then -(v : Int) else (v : Int)) ∧
      (if neg = true then -(v : Int) else (v : Int)) ≤ 2 ^ 63 - 1 ∧
      r = (if neg = true then -(v : Int) else (v : Int), none)) ∨
  (unsignedDecimal s = none ∧ r = (0, some NumError.ErrSyntax)) ∨
  (neg = false ∧ r = (2 ^ 63 - 1, some NumError.ErrRange) ∧
      ∀ v : Nat, unsignedDecimal s = some v → (2 ^ 63 - 1 : Int) < (v : Int)) ∨
  (neg = true ∧ r = (-2 ^ 63, some NumError.ErrRange) ∧
      ∀ v : Nat, unsignedDecimal s = some v → -(v : Int) < (-2 ^ 63 : Int))

/-- What `Atoi` may return on a query string, in terms of the integer the
string denotes: the integer itself when it is an `int64`; `0` with a syntax
error when the string is non-numeric; and otherwise a range error with the
largest or the smallest `int64`, which is the only outcome possible for a
numeric string outside the `int64` range. -/
def AtoiSpec (s : GoString) (r : Int × Option NumError) : Prop :=
  (∃ n : Int, numericValue s = some n ∧ -2 ^ 63 ≤ n ∧ n ≤ 2 ^ 63 - 1 ∧ r = (n, none)) ∨
  (numericValue s = none ∧ r = (0, some NumError.ErrSyntax)) ∨
  (r = (2 ^ 63 - 1, some NumError.ErrRange) ∧
      ∀ n : Int, numericValue s = some n → 2 ^ 63 - 1 < n) ∨
  (r = (-2 ^ 63, some NumError.ErrRange) ∧
      ∀ n : Int, numericValue s = some n → n < -2 ^ 63)

/-! ## Data model (`cmd/main.go`, lines 13-38) -/

/-- Go type `User`. -/
structure User where
  ID : Int
  Name : String
  Age : Int
deriving DecidableEq, Repr

/-- Go type `PaginationResponse`. -/
structure PaginationResponse where
  Page : Int
  PageSize : Int
  PageCount : Int
  Total : Int
deriving DecidableEq, Repr

/-- Go type `MetaResponse`. -/
structure MetaResponse where
  Pagination : PaginationResponse
deriving DecidableEq, Repr

/-- Go type `ErrorResponse`. -/
structure ErrorResponse where
  Error : String
  DeveloperDetails : String
deriving DecidableEq, Repr

/-- The two things the handlers store in `SuccessResponse.Data`. -/
inductive Data
  | user (u : User)
  | users (us : List User)
deriving DecidableEq, Repr

/-- Go type `SuccessResponse`; `Meta` is a nullable pointer. -/
structure SuccessResponse where
  Data : Data
  Meta : Option MetaResponse
deriving DecidableEq, Repr

/-- The values the handlers pass to `c.JSON`. -/
inductive Payload
  | error (e : ErrorResponse)
  | success (s : SuccessResponse)
  | user (u : User)
deriving DecidableEq, Repr

/-- What one run of a handler ends in: `json` is `return c.JSON(code, v)`,
`noContent` is `return c.NoContent(code)` (the status with an empty body),
`bindError` is `return err` with the error of `c.Bind`, and `fatal` is
`log.Fatal(err)`, after which the process exits without a response. -/
inductive Outcome
  | json (code : Nat) (payload : Payload)
  | noContent (code : Nat)
  | bindError (err : String)
  | fatal (err : String)
deriving DecidableEq, Repr

/-- Go constant `http.StatusOK`. -/
def StatusOK : Nat := 200

/-- Go constant `http.StatusCreated`. -/
def StatusCreated : Nat := 201

/-- Go constant `http.StatusNotFound`. -/
def StatusNotFound : Nat := 404

/-! ## The storage layer

The table `users (id INTEGER PRIMARY KEY AUTOINCREMENT, name TEXT NOT NULL,
age INTEGER NOT NULL)` of `createTable`.  A state is the list of rows in the
order a full scan returns them, and the `sqlite_sequence` counter SQLite
keeps for an `AUTOINCREMENT` key (`0` when the table has never been
inserted into).  Rows hold values of the declared column types, as
`createUser` and `updateUser` write them. -/

/-- A state of the `users` table. -/
structure DB where
  rows : List User
  seq : Int
deriving DecidableEq, Repr

/-- How the engine decides `id = ?` for the key column against the text bound
from the path parameter (SQLite converts the text under numeric affinity).
The handlers are parametric in it. -/
abbrev IdEq := GoString → Int → Bool

/-- The largest rowid SQLite can assign, `0x7fffffffffffffff`. -/
def MAX_ROWID : Int := 2 ^ 63 - 1

/-- The largest key in the table, `none` when it is empty. -/
def maxRowid : List User → Option Int
  | [] => none
  | r :: rest =>
    match maxRowid rest with
    | none => some r.ID
    | some m => some (max r.ID m)

/-- Statement `db.QueryRow("SELECT COUNT(*) FROM users").Scan(&total)`. -/
def countUsers (db : DB) : Int := (db.rows.length : Int)

/-- Statement `db.Query("SELECT * FROM users LIMIT ? OFFSET ?", limit, offset)`:
SQLite reads a negative `OFFSET` as `0` and a negative `LIMIT` as no limit.
In this model the statement itself does not fail. -/
def queryLimitOffset (db : DB) (limit offset : Int) : Except String (List User) :=
  let skipped := if offset < 0 then db.rows else db.rows.drop offset.toNat
  Except.ok (if limit < 0 then skipped else skipped.take limit.toNat)

/-- Statement `db.QueryRow("SELECT * FROM users WHERE id = ?", id).Scan(...)`: the
first matching row, or `sql.ErrNoRows`. -/
def queryRowById (idEq : IdEq) (db : DB) (id : GoString) : Except String User :=
  match db.rows.find? (fun r => idEq id r.ID) with
  | some u => Except.ok u
  | none => Except.error "sql: no rows in result set"

/-- Statement `db.Exec("INSERT INTO users (name, age) VALUES (?, ?)", name, age)`
followed by `result.LastInsertId()`.  The key is chosen as SQLite does for
`AUTOINCREMENT`: one more than the largest key in the table (`1` for an
empty table), raised to one more than `sqlite_sequence`; when either is
already `MAX_ROWID` the statement fails with `SQLITE_FULL`. -/
def execInsert (db : DB) (name : String) (age : Int) : Except String (DB × Int) :=
  let tableFull : Bool :=
    match maxRowid db.rows with
    | none => false
    | some m => decide (m ≥ MAX_ROWID)
  let v : Int :=
    match maxRowid db.rows with
    | none => 1
    | some m => m + 1
  if db.seq = MAX_ROWID ∨ tableFull = true then Except.error "database or disk is full"
  else
    let v := if v < db.seq + 1 then db.seq + 1 else v
    Except.ok ({ rows := db.rows ++ [{ ID := v, Name := name, Age := age }], seq := v }, v)

/-- Statement `db.Exec("UPDATE users SET name = ?, age = ? WHERE id = ?", name, age, id)`. -/
def execUpdate (idEq : IdEq) (db : DB) (name : String) (age : Int) (id : GoString) :
    Except String DB :=
  Except.ok { db with
    rows := db.rows.map (fun r => if idEq id r.ID then { r with Name := name, Age := age } else r) }

/-- Statement `db.Exec("DELETE FROM users WHERE id = ?", id)`. -/
def execDelete (idEq : IdEq) (db : DB) (id : GoString) : Except String DB :=
  Except.ok { db with rows := db.rows.filter (fun r => !idEq id r.ID) }

/-- Call `rows.Scan(&user.ID, &user.Name, &user.Age)` on one row: the columns hold
an integer, a text and an integer, which `Scan` assigns without error. -/
def scanRow (r : User) : Except String User := Except.ok r

/-! ## The handlers -/

/-- The `for rows.Next()` loop of `getUsers`: `Except.error` carries the
text of the `Scan` error that makes the handler return early. -/
def scanLoop : List User → List User → Except String (List User)
  | [], users => Except.ok users
  | r :: rest, users =>
    match scanRow r with
    | Except.error err => Except.error err
    | Except.ok user => scanLoop rest (users ++ [user])

/-- The handler `getUsers` (lines 79-143).  `pageQ` and `limitQ` are
`c.QueryParam("page")` and `c.QueryParam("limit")`, empty when absent. -/
def getUsers (db : DB) (pageQ limitQ : GoString) : Outcome :=
  let page := (Atoi pageQ).1
  let limit := (Atoi limitQ).1
  let page := if page < 1 then 1 else page
  let limit := if limit < 1 then 10 else limit
  let offset := wrapInt64 ((page - 1) * limit)
  let total := countUsers db
  match queryLimitOffset db limit offset with
  | Except.error err => Outcome.fatal err
  | Except.ok rows =>
    match scanLoop rows [] with
    | Except.error err =>
      Outcome.json StatusNotFound
        (Payload.error { Error := "No users found", DeveloperDetails := err })
    | Except.ok users =>
      let pageCount := Int.tdiv total limit
      let pageCount := if Int.tmod total limit > 0 then pageCount + 1 else pageCount
      let pagination : PaginationResponse :=
        { Page := page, PageSize := limit, PageCount := pageCount, Total := total }
      Outcome.json StatusOK
        (Payload.success { Data := Data.users users, Meta := some { Pagination := pagination } })

/-- The handler `getUser` (lines 145-163); `id` is `c.Param("id")`. -/
def getUser (idEq : IdEq) (db : DB) (id : GoString) : Outcome :=
  match queryRowById idEq db id with
  | Except.error err =>
    Outcome.json StatusNotFound
      (Payload.error { Error := "User not found", DeveloperDetails := err })
  | Except.ok user =>
    Outcome.json StatusOK (Payload.success { Data := Data.user user, Meta := none })

/-- The handler `createUser` (lines 165-182).  `bound` is what
`c.Bind(user)` leaves: an error, or the `User` decoded from the body (its
`ID` is whatever the body carried).  The result is the outcome and the
table afterwards. -/
def createUser (db : DB) (bound : Except String User) : Outcome × DB :=
  match bound with
  | Except.error err => (Outcome.bindError err, db)
  | Except.ok user =>
    match execInsert db user.Name user.Age with
    | Except.error err => (Outcome.fatal err, db)
    | Except.ok (db1, lastInsertId) =>
      (Outcome.json StatusCreated (Payload.user { user with ID := lastInsertId }), db1)

/-- The handler `updateUser` (lines 184-200). -/
def updateUser (idEq : IdEq) (db : DB) (id : GoString) (bound : Except String User) :
    Outcome × DB :=
  match bound with
  | Except.error err => (Outcome.bindError err, db)
  | Except.ok user =>
    match execUpdate idEq db user.Name user.Age id with
    | Except.error err => (Outcome.fatal err, db)
    | Except.ok db1 => (Outcome.noContent StatusOK, db1)

/-- The handler `deleteUser` (lines 202-213). -/
def deleteUser (idEq : IdEq) (db : DB) (id : GoString) : Outcome × DB :=
  match execDelete idEq db id with
  | Except.error err => (Outcome.fatal err, db)
  | Except.ok db1 => (Outcome.noContent StatusOK, db1)

/-! ## Named pieces of `getUsers` and of its response -/

/-- The `page` of `getUsers` after `if page < 1 { page = 1 }`. -/
def pageOf (pageQ : GoString) : Int :=
  if (Atoi pageQ).1 < 1 then 1 else (Atoi pageQ).1

/-- The `limit` of `getUsers` after `if limit < 1 { limit = 10 }`. -/
def limitOf (limitQ : GoString) : Int :=
  if (Atoi limitQ).1 < 1 then 10 else (Atoi limitQ).1

/-- The `pageCount` of `getUsers`: `total / limit`, incremented when
`total % limit > 0` (Go division and remainder truncate). -/
def pageCountOf (total limit : Int) : Int :=
  if Int.tmod total limit > 0 then Int.tdiv total limit + 1 else Int.tdiv total limit

/-- The users in the `data` field of a response (empty when the outcome is
not a list response). -/
def usersOf : Outcome → List User
  | Outcome.json _ (Payload.success { Data := Data.users us, Meta := _ }) => us
  | _ => []

/-- The value a parameter should normalise to according to the
specification: the default `dflt` when the string is non-numeric or denotes
an integer below `1`, the integer it denotes otherwise. -/
def normalizedSpec (dflt : Int) (s : GoString) : Int :=
  match numericValue s with
  | none => dflt
  | some n => if n < 1 then dflt else n

/-- A key comparison that accepts exactly the strings that denote the key in
decimal; an instance of `IdEq` for concrete runs. -/
def decimalIdEq : IdEq := fun s j => decide (numericValue s = some j)

/-- The page strings `1` and `2` of a client that asks for the first two
pages. -/
def twoPages (p : Nat) : GoString := if p = 1 then bytes "1" else bytes "2"

/-- A table of fifteen users with keys `1` to `15`. -/
def fifteenUsers : DB :=
  { rows := (List.range 15).map (fun i => { ID := (i : Int) + 1, Name := "user", Age := 20 + i }),
    seq := 15 }

/-! ## Facts about `Atoi` -/

theorem byte_lt (c : UInt8) : c.toNat < 256 := by
  have := UInt8.toNat_lt c
  omega

theorem isDigit_iff (c : UInt8) : isDigit c = true ↔ 48 ≤ c.toNat ∧ c.toNat ≤ 57 := by
  simp [isDigit]

theorem digitsValue_ge (s : List UInt8) : ∀ n, n ≤ digitsValue s n := by
  induction s with
  | nil => intro n; simp [digitsValue]
  | cons c rest ih =>
    intro n
    have := ih (n * 10 + (c.toNat - 48))
    simp only [digitsValue]
    omega

theorem digitsValue_lt (s : List UInt8) (hs : s.all isDigit = true) :
    ∀ n, digitsValue s n < (n + 1) * 10 ^ s.length := by
  induction s with
  | nil => intro n; simp [digitsValue]
  | cons c rest ih =>
    intro n
    simp only [List.all_cons, Bool.and_eq_true, isDigit_iff] at hs
    have h := ih hs.2 (n * 10 + (c.toNat - 48))
    simp only [digitsValue, List.length_cons, pow_succ]
    have h2 : (n * 10 + (c.toNat - 48) + 1) * 10 ^ rest.length ≤ (n + 1) * (10 ^ rest.length * 10) := by
      have : n * 10 + (c.toNat - 48) + 1 ≤ (n + 1) * 10 := by omega
      calc (n * 10 + (c.toNat - 48) + 1) * 10 ^ rest.length
          ≤ ((n + 1) * 10) * 10 ^ rest.length := Nat.mul_le_mul_right _ this
        _ = (n + 1) * (10 ^ rest.length * 10) := by ring
    omega

theorem atoiLoop_eq (s : List UInt8) : ∀ n : Nat,
    atoiLoop s (n : Int) =
      if s.all isDigit = true then some ((digitsValue s n : Nat) : Int) else none := by
  induction s with
  | nil => intro n; simp [atoiLoop, digitsValue]
  | cons c rest ih =>
    intro n
    have hc := byte_lt c
    by_cases hd : 48 ≤ c.toNat ∧ c.toNat ≤ 57
    · have h1 : (c.toNat + 256 - 48) % 256 = c.toNat - 48 := by omega
      have h2 : ¬ (c.toNat - 48 > 9) := by omega
      have h3 : isDigit c = true := (isDigit_iff c).2 hd
      have h4 : (n : Int) * 10 + ((c.toNat - 48 : Nat) : Int) = ((n * 10 + (c.toNat - 48) : Nat) : Int) := by
        push_cast; ring
      simp only [atoiLoop, h1, h2, if_false, h4, ih, List.all_cons, h3, Bool.true_and, digitsValue]
    · have h1 : (c.toNat + 256 - 48) % 256 > 9 := by omega
      have h3 : isDigit c = false := by
        rw [Bool.eq_false_iff]; intro h; exact hd ((isDigit_iff c).1 h)
      simp only [atoiLoop, List.all_cons, h3, Bool.false_and]
      rw [if_pos h1]
      simp

theorem parseUintDigit_digit (c : UInt8) (hd : isDigit c = true) :
    parseUintDigit c.toNat = some (c.toNat - 48) := by
  rw [isDigit_iff] at hd
  simp [parseUintDigit, hd]

theorem parseUintLoop_nondigit (c : UInt8) (rest : List UInt8) (n : Nat) (hd : isDigit c = false) :
    parseUintLoop (c :: rest) n = (0, some NumError.ErrSyntax) := by
  have hnd : ¬ (48 ≤ c.toNat ∧ c.toNat ≤ 57) := by
    intro h; rw [(isDigit_iff c).2 h] at hd; exact Bool.noConfusion hd
  simp only [parseUintLoop, parseUintDigit, hnd, if_false]
  split_ifs with h
  · simp [parseUintStep]
  · rfl

theorem cutoff10_eq : cutoff10 = 1844674407370955162 := by decide

theorem maxVal_eq : maxVal = 18446744073709551615 := by decide

/-- The three ways the loop of `ParseUint` can end. -/
theorem parseUintLoop_cases (s : List UInt8) : ∀ n : Nat, n < 2 ^ 64 →
    (s.all isDigit = true ∧ digitsValue s n < 2 ^ 64 ∧
        parseUintLoop s n = (digitsValue s n, none)) ∨
    (s.all isDigit = false ∧ parseUintLoop s n = (0, some NumError.ErrSyntax)) ∨
    (parseUintLoop s n = (maxVal, some NumError.ErrRange) ∧
        (s.all isDigit = true → 2 ^ 64 ≤ digitsValue s n)) := by
  induction s with
  | nil =>
    intro n hn
    exact Or.inl ⟨rfl, by simpa only [digitsValue] using hn, rfl⟩
  | cons c rest ih =>
    intro n hn
    cases hd : isDigit c with
    | false =>
      right; left
      exact ⟨by simp [hd], parseUintLoop_nondigit c rest n hd⟩
    | true =>
      have hd2 := (isDigit_iff c).1 hd
      have hge := digitsValue_ge rest (n * 10 + (c.toNat - 48))
      simp only [parseUintLoop, parseUintDigit_digit c hd, parseUintStep, List.all_cons, hd,
        Bool.true_and, digitsValue, cutoff10_eq, maxVal_eq]
      have h10 : ¬ (c.toNat - 48 ≥ 10) := by omega
      simp only [h10, if_false]
      by_cases hcut : n ≥ 1844674407370955162
      · right; right
        simp only [hcut, if_true, true_and]
        intro _; omega
      · simp only [hcut, if_false]
        have hm : n * 10 % 2 ^ 64 = n * 10 := Nat.mod_eq_of_lt (by omega)
        simp only [hm]
        by_cases hov : n * 10 + (c.toNat - 48) < 2 ^ 64
        · have hm2 : (n * 10 + (c.toNat - 48)) % 2 ^ 64 = n * 10 + (c.toNat - 48) :=
            Nat.mod_eq_of_lt hov
          have hno : ¬ (n * 10 + (c.toNat - 48) < n * 10 ∨
              n * 10 + (c.toNat - 48) > 18446744073709551615) := by omega
          simp only [hm2, hno, if_false]
          exact ih _ hov
        · right; right
          have hyes : (n * 10 + (c.toNat - 48)) % 2 ^ 64 < n * 10 ∨
              (n * 10 + (c.toNat - 48)) % 2 ^ 64 > 18446744073709551615 := by
            left; omega
          simp only [hyes, if_true, true_and]
          intro _; omega

theorem wrapInt64_of_range (x : Int) (h1 : -2 ^ 63 ≤ x) (h2 : x < 2 ^ 63) : wrapInt64 x = x := by
  unfold wrapInt64
  omega

theorem wrapInt64_neg_wrap (un : Nat) (h : un ≤ 2 ^ 63) :
    wrapInt64 (-(wrapInt64 (un : Int))) = -(un : Int) := by
  unfold wrapInt64
  omega

theorem ParseUint_cases (s : GoString) :
    (∃ v, unsignedDecimal s = some v ∧ v < 2 ^ 64 ∧ ParseUint s = (v, none)) ∨
    (unsignedDecimal s = none ∧ ParseUint s = (0, some NumError.ErrSyntax)) ∨
    (ParseUint s = (maxVal, some NumError.ErrRange) ∧
        ∀ v, unsignedDecimal s = some v → 2 ^ 64 ≤ v) := by
  by_cases hs : s = []
  · right; left
    simp [hs, unsignedDecimal, ParseUint]
  · have hP : ParseUint s = parseUintLoop s 0 := by simp [ParseUint, hs]
    rcases parseUintLoop_cases s 0 (by norm_num) with ⟨ha, hlt, hr⟩ | ⟨ha, hr⟩ | ⟨hr, hge⟩
    · left
      exact ⟨digitsValue s 0, by simp [unsignedDecimal, hs, ha], hlt, by rw [hP, hr]⟩
    · right; left
      exact ⟨by simp [unsignedDecimal, ha], by rw [hP, hr]⟩
    · right; right
      refine ⟨by rw [hP, hr], ?_⟩
      intro v hv
      unfold unsignedDecimal at hv
      split_ifs at hv with h
      cases hv
      exact hge h.2

/-- The outcome of `ParseInt` on a body `s` whose sign has been picked off. -/
theorem parseIntRange_cases (neg : Bool) (s : GoString) :
    BodySpec neg s (parseIntRange neg (ParseUint s)) := by
  unfold BodySpec
  rcases ParseUint_cases s with ⟨v, hv, hlt, hr⟩ | ⟨hn, hr⟩ | ⟨hr, hge⟩
  · rw [hr]
    cases neg with
    | false =>
      by_cases hcut : v ≥ 2 ^ 63
      · right; right; left
        refine ⟨rfl, by simp [parseIntRange]; omega, ?_⟩
        intro w hw
        rw [hv] at hw
        cases hw
        omega
      · left
        have hw : wrapInt64 (v : Int) = v := by
          apply wrapInt64_of_range <;> omega
        refine ⟨v, hv, ?_, ?_, by simp [parseIntRange, hw]; omega⟩
        · simp only [Bool.false_eq_true, if_false, if_true]; omega
        · simp only [Bool.false_eq_true, if_false, if_true]; omega
    | true =>
      by_cases hcut : v > 2 ^ 63
      · right; right; right
        refine ⟨rfl, by simp [parseIntRange]; omega, ?_⟩
        intro w hw
        rw [hv] at hw
        cases hw
        omega
      · left
        have hw : wrapInt64 (-(wrapInt64 (v : Int))) = -(v : Int) :=
          wrapInt64_neg_wrap v (by omega)
        refine ⟨v, hv, ?_, ?_, by simp [parseIntRange, hw]; omega⟩
        · simp only [Bool.false_eq_true, if_false, if_true]; omega
        · simp only [Bool.false_eq_true, if_false, if_true]; omega
  · right; left
    exact ⟨hn, by rw [hr]; simp [parseIntRange]⟩
  · rw [hr]
    cases neg with
    | false =>
      right; right; left
      refine ⟨rfl, by simp [parseIntRange, maxVal_eq], ?_⟩
      intro v hv
      have := hge v hv
      omega
    | true =>
      right; right; right
      refine ⟨rfl, by simp [parseIntRange, maxVal_eq], ?_⟩
      intro v hv
      have := hge v hv
      omega

/-- The fast path computes what `ParseInt` specifies. -/
theorem atoiFast_cases (c : UInt8) (rest : List UInt8) (hlen : (c :: rest).length < 19) :
    BodySpec (decide (c.toNat = 45))
      (if c.toNat = 43 ∨ c.toNat = 45 then rest else c :: rest) (atoiFast (c :: rest)) := by
  have key : ∀ (neg : Bool) (body : List UInt8), body.length < 19 → body ≠ [] →
      BodySpec neg body
        (match atoiLoop body 0 with
          | none => ((0 : Int), some NumError.ErrSyntax)
          | some n => (if neg = true then -n else n, none)) := by
    intro neg body hb hne
    have h0 := atoiLoop_eq body 0
    rw [Nat.cast_zero] at h0
    rw [h0]
    unfold BodySpec
    cases ha : body.all isDigit with
    | false =>
      right; left
      simp [unsignedDecimal, ha]
    | true =>
      left
      have hlt := digitsValue_lt body ha 0
      have hpow : 10 ^ body.length ≤ 10 ^ 18 := Nat.pow_le_pow_right (by norm_num) (by omega)
      have hv : digitsValue body 0 < 10 ^ 18 := by omega
      refine ⟨digitsValue body 0, by simp [unsignedDecimal, ha, hne], ?_, ?_, by simp⟩
      · cases neg <;> simp only [Bool.false_eq_true, if_false, if_true] <;> omega
      · cases neg <;> simp only [Bool.false_eq_true, if_false, if_true] <;> omega
  simp only [List.length_cons] at hlen
  by_cases h45 : c.toNat = 45
  · have h43 : ¬ c.toNat = 43 := by omega
    cases rest with
    | nil =>
      unfold BodySpec
      right; left
      simp [atoiFast, h45, unsignedDecimal]
    | cons d ds =>
      have := key true (d :: ds) (by simp only [List.length_cons] at hlen ⊢; omega) (by simp)
      simpa [atoiFast, h45] using this
  · by_cases h43 : c.toNat = 43
    · cases rest with
      | nil =>
        unfold BodySpec
        right; left
        simp [atoiFast, h43, unsignedDecimal]
      | cons d ds =>
        have := key false (d :: ds) (by simp only [List.length_cons] at hlen ⊢; omega) (by simp)
        simpa [atoiFast, h43, h45] using this
    · have := key false (c :: rest) (by simp only [List.length_cons]; omega) (by simp)
      simpa [atoiFast, h43, h45] using this

theorem AtoiSpec_of_body (c : UInt8) (rest : List UInt8) (r : Int × Option NumError)
    (h : BodySpec (decide (c.toNat = 45))
      (if c.toNat = 43 ∨ c.toNat = 45 then rest else c :: rest) r) :
    AtoiSpec (c :: rest) r := by
  unfold BodySpec at h
  unfold AtoiSpec
  by_cases h45 : c.toNat = 45
  · have h43 : ¬ c.toNat = 43 := by omega
    simp only [h45, h43, or_true, if_true, decide_True, false_or] at h
    simp only [numericValue, h45, h43, if_true, if_false]
    rcases h with ⟨v, hv, h1, h2, hr⟩ | ⟨hn, hr⟩ | ⟨hf, _⟩ | ⟨_, hr, hall⟩
    · left; exact ⟨-(v : Int), by simp [hv], h1, h2, hr⟩
    · right; left; exact ⟨by simp [hn], hr⟩
    · exact absurd hf (by simp)
    · right; right; right
      refine ⟨hr, ?_⟩
      intro n hn
      cases hu : unsignedDecimal rest with
      | none => simp [hu] at hn
      | some v =>
        simp [hu] at hn
        rw [← hn]
        exact hall v hu
  · have hneg : decide (c.toNat = 45) = false := by simp [h45]
    rw [hneg] at h
    simp only [Bool.false_eq_true, if_false, false_and, or_false] at h
    have hnum : numericValue (c :: rest) =
        (unsignedDecimal (if c.toNat = 43 ∨ c.toNat = 45 then rest else c :: rest)).map
          (fun v : Nat => (v : Int)) := by
      by_cases h43 : c.toNat = 43
      · simp [numericValue, h43]
      · simp [numericValue, h43, h45]
    rw [hnum]
    rcases h with ⟨v, hv, h1, h2, hr⟩ | ⟨hn, hr⟩ | ⟨_, hr, hall⟩
    · left; exact ⟨(v : Int), by simp [hv], h1, h2, hr⟩
    · right; left; exact ⟨by simp [hn], hr⟩
    · right; right; left
      refine ⟨hr, ?_⟩
      intro n hn
      cases hu : unsignedDecimal (if c.toNat = 43 ∨ c.toNat = 45 then rest else c :: rest) with
      | none => simp [hu] at hn
      | some v =>
        simp only [hu, Option.map_some', Option.some.injEq] at hn
        rw [← hn]
        exact hall v hu

/-- The pair `Atoi` returns, for every byte string. -/
theorem Atoi_spec (s : GoString) : AtoiSpec s (Atoi s) := by
  cases s with
  | nil =>
    unfold AtoiSpec
    right; left
    simp [Atoi, ParseInt, numericValue]
  | cons c rest =>
    apply AtoiSpec_of_body
    by_cases hlen : (c :: rest).length < 19
    · have hA : Atoi (c :: rest) = atoiFast (c :: rest) := by
        simp only [Atoi, intSize, true_and]
        rw [if_pos ⟨by simp, hlen⟩]
      rw [hA]
      exact atoiFast_cases c rest hlen
    · have hA : Atoi (c :: rest) = ParseInt (c :: rest) := by
        simp only [Atoi, intSize, true_and]
        rw [if_neg (fun h => hlen h.2)]
      rw [hA]
      exact parseIntRange_cases _ _

/-- A numeric string that denotes an `int64` is read without error. -/
theorem Atoi_of_int64 (s : GoString) (n : Int) (hn : numericValue s = some n)
    (h1 : -2 ^ 63 ≤ n) (h2 : n ≤ 2 ^ 63 - 1) : Atoi s = (n, none) := by
  rcases Atoi_spec s with ⟨m, hm, _, _, hr⟩ | ⟨hm, _⟩ | ⟨_, hall⟩ | ⟨_, hall⟩
  · rw [hn] at hm; cases hm; exact hr
  · rw [hn] at hm; cases hm
  · have := hall n hn; omega
  · have := hall n hn; omega

theorem fastResult_no_range (o : Option Int) (f : Int → Int) :
    (match o with
      | none => ((0 : Int), some NumError.ErrSyntax)
      | some n => (f n, none)).2 ≠ some NumError.ErrRange := by
  cases o <;> simp

/-- A string shorter than 19 bytes never yields a range error. -/
theorem Atoi_short_no_range (s : GoString) (hlen : s.length < 19) :
    (Atoi s).2 ≠ some NumError.ErrRange := by
  cases s with
  | nil => decide
  | cons c rest =>
    have hA : Atoi (c :: rest) = atoiFast (c :: rest) := by
      simp only [Atoi, intSize, true_and]
      rw [if_pos ⟨by simp, hlen⟩]
    rw [hA]
    simp only [atoiFast]
    split_ifs <;>
      first
        | exact fastResult_no_range _ (fun n => -n)
        | exact fastResult_no_range _ (fun n => n)
        | simp

/-! ## The list handler -/

theorem scanLoop_eq (rows : List User) : ∀ users, scanLoop rows users = Except.ok (users ++ rows) := by
  induction rows with
  | nil => intro users; simp [scanLoop]
  | cons r rest ih => intro users; simp [scanLoop, scanRow, ih]

theorem limitOf_pos (limitQ : GoString) : 1 ≤ limitOf limitQ := by
  unfold limitOf
  split_ifs <;> omega

theorem pageOf_pos (pageQ : GoString) : 1 ≤ pageOf pageQ := by
  unfold pageOf
  split_ifs <;> omega

/-- The response of `getUsers` in closed form. -/
theorem getUsers_eq (db : DB) (pageQ limitQ : GoString) :
    getUsers db pageQ limitQ =
      Outcome.json StatusOK (Payload.success
        { Data := Data.users
            ((if wrapInt64 ((pageOf pageQ - 1) * limitOf limitQ) < 0 then db.rows
              else db.rows.drop (wrapInt64 ((pageOf pageQ - 1) * limitOf limitQ)).toNat).take
                (limitOf limitQ).toNat),
          Meta := some { Pagination :=
            { Page := pageOf pageQ, PageSize := limitOf limitQ,
              PageCount := pageCountOf (countUsers db) (limitOf limitQ),
              Total := countUsers db } } }) := by
  have hl := limitOf_pos limitQ
  have hneg : ¬ limitOf limitQ < 0 := by omega
  have hp : (if (Atoi pageQ).1 < 1 then (1 : Int) else (Atoi pageQ).1) = pageOf pageQ := rfl
  have hq : (if (Atoi limitQ).1 < 1 then (10 : Int) else (Atoi limitQ).1) = limitOf limitQ := rfl
  unfold getUsers
  simp only [hp, hq]
  simp only [queryLimitOffset, hneg, if_false, scanLoop_eq, List.nil_append, pageCountOf]

theorem pageCountOf_eq (total limit : Int) (ht : 0 ≤ total) (hl : 1 ≤ limit) :
    pageCountOf total limit = total / limit + (if total % limit > 0 then 1 else 0) := by
  unfold pageCountOf
  rw [Int.tdiv_eq_ediv ht (by omega), Int.tmod_eq_emod ht (by omega)]
  split_ifs <;> simp

theorem pageCountOf_ceil (total limit : Int) (ht : 0 ≤ total) (hl : 1 ≤ limit) :
    pageCountOf total limit = ⌈(total : ℚ) / (limit : ℚ)⌉ := by
  rw [pageCountOf_eq total limit ht hl]
  symm
  rw [Int.ceil_eq_iff]
  have hlq : (0 : ℚ) < (limit : ℚ) := by exact_mod_cast (by omega : (0 : Int) < limit)
  have hdiv := Int.emod_add_ediv total limit
  have hm0 := Int.emod_nonneg total (by omega : limit ≠ 0)
  have hm1 := Int.emod_lt_of_pos total (by omega : (0 : Int) < limit)
  have hq : (total : ℚ) = (total % limit : Int) + (limit : ℚ) * ((total / limit : Int) : ℚ) := by
    exact_mod_cast hdiv.symm
  have hm0q : (0 : ℚ) ≤ ((total % limit : Int) : ℚ) := by exact_mod_cast hm0
  have hm1q : ((total % limit : Int) : ℚ) < (limit : ℚ) := by exact_mod_cast hm1
  constructor
  · rw [lt_div_iff₀ hlq]
    split_ifs with h
    · have : (0 : ℚ) < ((total % limit : Int) : ℚ) := by exact_mod_cast h
      push_cast
      nlinarith
    · have : ((total % limit : Int) : ℚ) = 0 := by
        have : total % limit = 0 := by omega
        exact_mod_cast this
      push_cast
      nlinarith
  · rw [div_le_iff₀ hlq]
    split_ifs with h
    · push_cast
      nlinarith
    · have : ((total % limit : Int) : ℚ) = 0 := by
        have : total % limit = 0 := by omega
        exact_mod_cast this
      push_cast
      nlinarith

theorem normalize_eq_spec (dflt : Int) (s : GoString) (h : (Atoi s).2 ≠ some NumError.ErrRange) :
    (if (Atoi s).1 < 1 then dflt else (Atoi s).1) = normalizedSpec dflt s := by
  unfold normalizedSpec
  rcases Atoi_spec s with ⟨n, hn, _, _, hr⟩ | ⟨hn, hr⟩ | ⟨hr, _⟩ | ⟨hr, _⟩
  · rw [hn, hr]
  · rw [hn, hr]; simp
  · rw [hr] at h; exact absurd rfl h
  · rw [hr] at h; exact absurd rfl h

/-- C10, refuted as stated: on the well-formed digit string
`99999999999999999999`, which lies outside the integer range, `Atoi` returns
a (range) error and `getUsers` obtains `9223372036854775807`, not `0`; the
value survives normalization and is echoed as page and page size. -/
theorem Atoi_range_error_not_zero :
    numericValue (bytes "99999999999999999999") = some 99999999999999999999 ∧
    Atoi (bytes "99999999999999999999") = (9223372036854775807, some NumError.ErrRange) ∧
    Atoi (bytes "-99999999999999999999") = (-9223372036854775808, some NumError.ErrRange) ∧
    getUsers { rows := [], seq := 0 } (bytes "99999999999999999999")
        (bytes "99999999999999999999") =
      Outcome.json 200 (Payload.success
        { Data := Data.users [],
          Meta := some { Pagination :=
            { Page := 9223372036854775807, PageSize := 9223372036854775807,
              PageCount := 0, Total := 0 } } }) := by
  decide

/-- C10, amended: the value `getUsers` obtains from `strconv.Atoi` (whose
error it discards) is `0` whenever `Atoi` fails with a syntax error, which
is the case for an absent (empty) parameter; whenever `Atoi` fails with a
range error the value is `2^63 - 1` or `-2^63`, and this is what happens on
every numeric string that denotes an integer above, respectively below, the
`int64` range. -/
theorem Atoi_failure_value (s : GoString) :
    ((Atoi s).2 = some NumError.ErrSyntax → (Atoi s).1 = 0) ∧
    (s = [] → Atoi s = (0, some NumError.ErrSyntax)) ∧
    ((Atoi s).2 = some NumError.ErrRange → (Atoi s).1 = 2 ^ 63 - 1 ∨ (Atoi s).1 = -2 ^ 63) ∧
    (∀ n : Int, numericValue s = some n → 2 ^ 63 - 1 < n →
        Atoi s = (2 ^ 63 - 1, some NumError.ErrRange)) ∧
    (∀ n : Int, numericValue s = some n → n < -2 ^ 63 →
        Atoi s = (-2 ^ 63, some NumError.ErrRange)) := by
  have hspec := Atoi_spec s
  unfold AtoiSpec at hspec
  refine ⟨?_, ?_, ?_, ?_, ?_⟩
  · intro h
    rcases hspec with ⟨n, _, _, _, hr⟩ | ⟨_, hr⟩ | ⟨hr, _⟩ | ⟨hr, _⟩ <;> rw [hr] at h ⊢ <;>
      simp at h ⊢
  · intro h
    subst h
    decide
  · intro h
    rcases hspec with ⟨n, _, _, _, hr⟩ | ⟨_, hr⟩ | ⟨hr, _⟩ | ⟨hr, _⟩ <;> rw [hr] at h ⊢ <;>
      simp at h ⊢
  · intro n hn hgt
    rcases hspec with ⟨m, hm, _, h2, _⟩ | ⟨hm, _⟩ | ⟨hr, _⟩ | ⟨_, hall⟩
    · rw [hn] at hm; cases hm; omega
    · rw [hn] at hm; cases hm
    · exact hr
    · have := hall n hn; omega
  · intro n hn hlt
    rcases hspec with ⟨m, hm, h1, _, _⟩ | ⟨hm, _⟩ | ⟨_, hall⟩ | ⟨hr, _⟩
    · rw [hn] at hm; cases hm; omega
    · rw [hn] at hm; cases hm
    · have := hall n hn; omega
    · exact hr

/-- A concrete run of the parser: a non-numeric string gives `0`, and
a digit string above the range gives the largest `int64`. -/
theorem Atoi_failure_value_witness :
    (Atoi (bytes "ten")).1 = 0 ∧
    Atoi (bytes "99999999999999999999") = (2 ^ 63 - 1, some NumError.ErrRange) :=
  ⟨(Atoi_failure_value (bytes "ten")).1 (by decide),
   (Atoi_failure_value (bytes "99999999999999999999")).2.2.2.1 99999999999999999999
     (by decide) (by decide)⟩

/-- C1, refuted as stated: the string `99999999999999999999x` is
non-numeric, so the specification asks for page `1` and page size `10`, yet
`getUsers` uses and echoes `9223372036854775807` for both; the same happens
for the numeric string `99999999999999999999`, which is not echoed as the
integer it denotes. -/
theorem getUsers_normalization_fails :
    numericValue (bytes "99999999999999999999x") = none ∧
    normalizedSpec 1 (bytes "99999999999999999999x") = 1 ∧
    normalizedSpec 10 (bytes "99999999999999999999x") = 10 ∧
    getUsers { rows := [], seq := 0 } (bytes "99999999999999999999x")
        (bytes "99999999999999999999x") =
      Outcome.json 200 (Payload.success
        { Data := Data.users [],
          Meta := some { Pagination :=
            { Page := 9223372036854775807, PageSize := 9223372036854775807,
              PageCount := 0, Total := 0 } } }) ∧
    normalizedSpec 1 (bytes "99999999999999999999") = 99999999999999999999 ∧
    pageOf (bytes "99999999999999999999") = 9223372036854775807 := by
  decide

/-- C1, amended: for every pair of query strings on which `strconv.Atoi`
reports no range error, `getUsers` answers 200, the page it uses for the
query and echoes in `meta.pagination.page` is `1` when the page string is
non-numeric, absent or denotes an integer below `1` and the integer it
denotes otherwise, and the limit it uses and echoes in
`meta.pagination.page_size` is `10` when the limit string is non-numeric,
absent or denotes an integer below `1` and the integer it denotes
otherwise. -/
theorem getUsers_normalizes (db : DB) (pageQ limitQ : GoString)
    (hp : (Atoi pageQ).2 ≠ some NumError.ErrRange)
    (hl : (Atoi limitQ).2 ≠ some NumError.ErrRange) :
    ∃ users : List User,
      queryLimitOffset db (normalizedSpec 10 limitQ)
          (wrapInt64 ((normalizedSpec 1 pageQ - 1) * normalizedSpec 10 limitQ)) =
        Except.ok users ∧
      getUsers db pageQ limitQ =
        Outcome.json 200 (Payload.success
          { Data := Data.users users,
            Meta := some { Pagination :=
              { Page := normalizedSpec 1 pageQ, PageSize := normalizedSpec 10 limitQ,
                PageCount := pageCountOf (countUsers db) (normalizedSpec 10 limitQ),
                Total := countUsers db } } }) := by
  have h1 : pageOf pageQ = normalizedSpec 1 pageQ := normalize_eq_spec 1 pageQ hp
  have h2 : limitOf limitQ = normalizedSpec 10 limitQ := normalize_eq_spec 10 limitQ hl
  have hpos := limitOf_pos limitQ
  have hneg : ¬ normalizedSpec 10 limitQ < 0 := by rw [← h2]; omega
  refine ⟨(if wrapInt64 ((normalizedSpec 1 pageQ - 1) * normalizedSpec 10 limitQ) < 0 then db.rows
      else db.rows.drop
        (wrapInt64 ((normalizedSpec 1 pageQ - 1) * normalizedSpec 10 limitQ)).toNat).take
        (normalizedSpec 10 limitQ).toNat, ?_, ?_⟩
  · simp only [queryLimitOffset, hneg, if_false]
  · rw [getUsers_eq, h1, h2]
    rfl

/-- A concrete run of the list handler: page `0` and limit `ten` on the
table of fifteen users are served as page `1` with page size `10`. -/
theorem getUsers_normalizes_witness :
    ∃ users : List User,
      queryLimitOffset fifteenUsers (normalizedSpec 10 (bytes "ten"))
          (wrapInt64 ((normalizedSpec 1 (bytes "0") - 1) * normalizedSpec 10 (bytes "ten"))) =
        Except.ok users ∧
      getUsers fifteenUsers (bytes "0") (bytes "ten") =
        Outcome.json 200 (Payload.success
          { Data := Data.users users,
            Meta := some { Pagination :=
              { Page := normalizedSpec 1 (bytes "0"), PageSize := normalizedSpec 10 (bytes "ten"),
                PageCount := pageCountOf (countUsers fifteenUsers) (normalizedSpec 10 (bytes "ten")),
                Total := countUsers fifteenUsers } } }) :=
  getUsers_normalizes fifteenUsers (bytes "0") (bytes "ten") (by decide) (by decide)

/-- C2: in every response of `getUsers` the reported page count is the
ceiling of `total / L`, where `total` is the row count and `L >= 1` the
normalized limit echoed as page size; it is computed as `total / L` plus one
when `total % L > 0`, it is `0` when `total = 0`, and for 15 rows with limit
`10` it is `2`. -/
theorem getUsers_pageCount_ceil (db : DB) (pageQ limitQ : GoString) :
    getUsers db pageQ limitQ =
      Outcome.json 200 (Payload.success
        { Data := Data.users (usersOf (getUsers db pageQ limitQ)),
          Meta := some { Pagination :=
            { Page := pageOf pageQ, PageSize := limitOf limitQ,
              PageCount := ⌈((db.rows.length : Int) : ℚ) / ((limitOf limitQ : Int) : ℚ)⌉,
              Total := (db.rows.length : Int) } } }) ∧
    1 ≤ limitOf limitQ ∧
    ⌈((db.rows.length : Int) : ℚ) / ((limitOf limitQ : Int) : ℚ)⌉ =
      (db.rows.length : Int) / limitOf limitQ +
        (if (db.rows.length : Int) % limitOf limitQ > 0 then 1 else 0) ∧
    (db.rows.length = 0 →
      ⌈((db.rows.length : Int) : ℚ) / ((limitOf limitQ : Int) : ℚ)⌉ = 0) ∧
    getUsers fifteenUsers (bytes "2") (bytes "10") =
      Outcome.json 200 (Payload.success
        { Data := Data.users (usersOf (getUsers fifteenUsers (bytes "2") (bytes "10"))),
          Meta := some { Pagination :=
            { Page := 2, PageSize := 10, PageCount := 2, Total := 15 } } }) := by
  have hl := limitOf_pos limitQ
  have ht : (0 : Int) ≤ (db.rows.length : Int) := Int.natCast_nonneg _
  have hceil := pageCountOf_ceil (db.rows.length : Int) (limitOf limitQ) ht hl
  have heq := pageCountOf_eq (db.rows.length : Int) (limitOf limitQ) ht hl
  refine ⟨?_, hl, ?_, ?_, by decide⟩
  · rw [getUsers_eq, ← hceil]
    rfl
  · rw [← hceil, heq]
  · intro h0
    rw [← hceil, heq, h0]
    simp

/-! ## Paging through the table -/

theorem flatMap_range_take {α : Type} (rows : List α) (L : Nat) : ∀ n : Nat,
    (List.range n).flatMap (fun k => (rows.drop (k * L)).take L) = rows.take (n * L) := by
  intro n
  induction n with
  | zero => simp
  | succ n ih =>
    rw [List.range_succ, List.flatMap_append, ih, List.flatMap_singleton, Nat.succ_mul,
      List.take_add]

theorem flatMap_congr_mem {α β : Type} (l : List α) (f g : α → List β)
    (h : ∀ a ∈ l, f a = g a) : l.flatMap f = l.flatMap g := by
  induction l with
  | nil => rfl
  | cons a rest ih =>
    rw [List.flatMap_cons, List.flatMap_cons, h a (List.mem_cons_self a rest),
      ih (fun b hb => h b (List.mem_cons_of_mem a hb))]

theorem pageCountOf_natCast (T L : Nat) (hL : 1 ≤ L) :
    pageCountOf (T : Int) (L : Int) = ((T / L + (if T % L > 0 then 1 else 0) : Nat) : Int) := by
  rw [pageCountOf_eq (T : Int) (L : Int) (Int.natCast_nonneg _) (by omega)]
  have hm : (T : Int) % (L : Int) = ((T % L : Nat) : Int) := (Int.natCast_mod T L).symm
  have hd : (T : Int) / (L : Int) = ((T / L : Nat) : Int) := (Int.natCast_div T L).symm
  rw [hm, hd]
  by_cases h : T % L > 0
  · have h2 : ((T % L : Nat) : Int) > 0 := by omega
    rw [if_pos h2, if_pos h, Nat.cast_add, Nat.cast_one]
  · have h2 : ¬ ((T % L : Nat) : Int) > 0 := by omega
    rw [if_neg h2, if_neg h, Nat.add_zero, Int.add_zero]

/-- Arithmetic of the page count `pc = T / L + [T % L > 0]`. -/
theorem pageCount_bounds (T L : Nat) (hL : 1 ≤ L) :
    T ≤ (T / L + (if T % L > 0 then 1 else 0)) * L ∧
    (∀ p, 1 ≤ p → p ≤ T / L + (if T % L > 0 then 1 else 0) → (p - 1) * L ≤ T) ∧
    (∀ p, p < T / L + (if T % L > 0 then 1 else 0) → p * L ≤ T) := by
  have hdm := Nat.div_add_mod T L
  have hlt := Nat.mod_lt T (by omega : L > 0)
  have hle := Nat.div_mul_le_self T L
  have hcomm : L * (T / L) = T / L * L := Nat.mul_comm _ _
  refine ⟨?_, ?_, ?_⟩
  · split_ifs with h
    · rw [Nat.add_mul]; omega
    · rw [Nat.add_mul]; omega
  · intro p hp1 hp
    have hp' : p - 1 ≤ T / L := by split_ifs at hp <;> omega
    exact le_trans (Nat.mul_le_mul_right L hp') hle
  · intro p hp
    have hp' : p ≤ T / L := by split_ifs at hp <;> omega
    exact le_trans (Nat.mul_le_mul_right L hp') hle

/-- One page of `getUsers`, for a page string that `Atoi` reads as `p`. -/
theorem getUsers_page (db : DB) (pageQ limitQ : GoString) (p : Nat) (hp1 : 1 ≤ p)
    (hA : (Atoi pageQ).1 = (p : Int))
    (hoff : ((p - 1) * (limitOf limitQ).toNat : Nat) ≤ db.rows.length)
    (hT : (db.rows.length : Int) ≤ 2 ^ 63 - 1) :
    usersOf (getUsers db pageQ limitQ) =
      (db.rows.drop ((p - 1) * (limitOf limitQ).toNat)).take (limitOf limitQ).toNat := by
  have hl := limitOf_pos limitQ
  have hLc : (((limitOf limitQ).toNat : Nat) : Int) = limitOf limitQ :=
    Int.toNat_of_nonneg (by omega)
  have hpage : pageOf pageQ = (p : Int) := by
    unfold pageOf
    rw [hA]
    have : ¬ ((p : Int) < 1) := by omega
    simp [this]
  have hprod : (pageOf pageQ - 1) * limitOf limitQ =
      (((p - 1) * (limitOf limitQ).toNat : Nat) : Int) := by
    rw [hpage, ← hLc]
    push_cast [Nat.cast_sub hp1]
    simp
  have hw : wrapInt64 ((pageOf pageQ - 1) * limitOf limitQ) =
      (((p - 1) * (limitOf limitQ).toNat : Nat) : Int) := by
    rw [hprod]
    apply wrapInt64_of_range <;> omega
  rw [getUsers_eq, hw]
  have hnn : ¬ ((((p - 1) * (limitOf limitQ).toNat : Nat) : Int) < 0) := by omega
  simp only [usersOf, hnn, if_false, Int.toNat_ofNat]

/-- C3: for a table of `total` rows (with `total` an `int64`, unchanged
between the requests) and any limit string, normalized to `L >= 1`, let
`pc` be the page count.  Requesting the pages `p = 1, ..., pc` (by any page
strings that `Atoi` reads as `p`) returns for page `p` the rows at offsets
`(p-1)*L` up to but excluding `min(p*L, total)`; every page before the last
has exactly `L` rows; the pages concatenated in order are exactly the rows
of the table, so no row is returned twice or skipped; and the numbers of
users returned sum to `total`. -/
theorem getUsers_pages_cover (db : DB) (limitQ : GoString) (pageStr : Nat → GoString)
    (hT : (db.rows.length : Int) ≤ 2 ^ 63 - 1)
    (hpage : ∀ p : Nat, 1 ≤ p →
      (p : Int) ≤ pageCountOf (countUsers db) (limitOf limitQ) → (Atoi (pageStr p)).1 = (p : Int)) :
    (∀ p : Nat, 1 ≤ p → (p : Int) ≤ pageCountOf (countUsers db) (limitOf limitQ) →
      usersOf (getUsers db (pageStr p) limitQ) =
        (db.rows.drop ((p - 1) * (limitOf limitQ).toNat)).take (limitOf limitQ).toNat ∧
      (usersOf (getUsers db (pageStr p) limitQ)).length =
        min (p * (limitOf limitQ).toNat) db.rows.length - (p - 1) * (limitOf limitQ).toNat) ∧
    (∀ p : Nat, 1 ≤ p → (p : Int) < pageCountOf (countUsers db) (limitOf limitQ) →
      (usersOf (getUsers db (pageStr p) limitQ)).length = (limitOf limitQ).toNat) ∧
    (List.range (pageCountOf (countUsers db) (limitOf limitQ)).toNat).flatMap
        (fun k => usersOf (getUsers db (pageStr (k + 1)) limitQ)) = db.rows ∧
    ((List.range (pageCountOf (countUsers db) (limitOf limitQ)).toNat).map
        (fun k => (usersOf (getUsers db (pageStr (k + 1)) limitQ)).length)).sum =
      db.rows.length := by
  have hl := limitOf_pos limitQ
  have hLc : (((limitOf limitQ).toNat : Nat) : Int) = limitOf limitQ :=
    Int.toNat_of_nonneg (by omega)
  have hL1 : 1 ≤ (limitOf limitQ).toNat := by omega
  have hpc : pageCountOf (countUsers db) (limitOf limitQ) =
      ((db.rows.length / (limitOf limitQ).toNat +
        (if db.rows.length % (limitOf limitQ).toNat > 0 then 1 else 0) : Nat) : Int) := by
    rw [← hLc]
    exact pageCountOf_natCast db.rows.length _ hL1
  obtain ⟨hcover, hbelow, hfull⟩ := pageCount_bounds db.rows.length (limitOf limitQ).toNat hL1
  rw [hpc] at hpage ⊢
  rw [Int.toNat_ofNat]
  have hslice : ∀ p : Nat, 1 ≤ p →
      p ≤ db.rows.length / (limitOf limitQ).toNat +
        (if db.rows.length % (limitOf limitQ).toNat > 0 then 1 else 0) →
      usersOf (getUsers db (pageStr p) limitQ) =
        (db.rows.drop ((p - 1) * (limitOf limitQ).toNat)).take (limitOf limitQ).toNat := by
    intro p hp1 hp
    exact getUsers_page db (pageStr p) limitQ p hp1 (hpage p hp1 (by exact_mod_cast hp))
      (hbelow p hp1 hp) hT
  have hcat : (List.range (db.rows.length / (limitOf limitQ).toNat +
        (if db.rows.length % (limitOf limitQ).toNat > 0 then 1 else 0))).flatMap
        (fun k => usersOf (getUsers db (pageStr (k + 1)) limitQ)) = db.rows := by
    have hcongr : (List.range (db.rows.length / (limitOf limitQ).toNat +
        (if db.rows.length % (limitOf limitQ).toNat > 0 then 1 else 0))).flatMap
        (fun k => usersOf (getUsers db (pageStr (k + 1)) limitQ)) =
        (List.range (db.rows.length / (limitOf limitQ).toNat +
        (if db.rows.length % (limitOf limitQ).toNat > 0 then 1 else 0))).flatMap
        (fun k => (db.rows.drop (k * (limitOf limitQ).toNat)).take (limitOf limitQ).toNat) := by
      apply flatMap_congr_mem
      intro k hk
      rw [List.mem_range] at hk
      have := hslice (k + 1) (by omega) (by omega)
      simpa using this
    rw [hcongr, flatMap_range_take]
    exact List.take_of_length_le hcover
  refine ⟨?_, ?_, hcat, ?_⟩
  · intro p hp1 hp
    have hs := hslice p hp1 (by exact_mod_cast hp)
    refine ⟨hs, ?_⟩
    rw [hs, List.length_take, List.length_drop]
    have hb := hbelow p hp1 (by exact_mod_cast hp)
    have hmul : p * (limitOf limitQ).toNat =
        (p - 1) * (limitOf limitQ).toNat + (limitOf limitQ).toNat := by
      have : p = (p - 1) + 1 := by omega
      conv_lhs => rw [this, Nat.add_mul, Nat.one_mul]
    omega
  · intro p hp1 hp
    have hp' : p < db.rows.length / (limitOf limitQ).toNat +
        (if db.rows.length % (limitOf limitQ).toNat > 0 then 1 else 0) := by exact_mod_cast hp
    rw [hslice p hp1 (by omega), List.length_take, List.length_drop]
    have hf := hfull p hp'
    have hmul : p * (limitOf limitQ).toNat =
        (p - 1) * (limitOf limitQ).toNat + (limitOf limitQ).toNat := by
      have : p = (p - 1) + 1 := by omega
      conv_lhs => rw [this, Nat.add_mul, Nat.one_mul]
    omega
  · have hlen := congrArg List.length hcat
    rw [List.length_flatMap] at hlen
    exact hlen

/-- A concrete run of paging: the fifteen users with limit `10` are
served as two pages, the second of which has five users, and the page sizes
sum to fifteen. -/
theorem getUsers_pages_cover_witness :
    pageCountOf (countUsers fifteenUsers) (limitOf (bytes "10")) = 2 ∧
    (usersOf (getUsers fifteenUsers (bytes "2") (bytes "10"))).length = 5 ∧
    ((List.range (pageCountOf (countUsers fifteenUsers) (limitOf (bytes "10"))).toNat).map
        (fun k => (usersOf (getUsers fifteenUsers (twoPages (k + 1)) (bytes "10"))).length)).sum =
      fifteenUsers.rows.length :=
  have hpc : pageCountOf (countUsers fifteenUsers) (limitOf (bytes "10")) = 2 := by decide
  have h := getUsers_pages_cover fifteenUsers (bytes "10") twoPages (by decide)
    (by
      intro p h1 h2
      rw [hpc] at h2
      have hp : p = 1 ∨ p = 2 := by omega
      rcases hp with rfl | rfl <;> decide)
  ⟨hpc, by decide, h.2.2.2⟩

/-! ## The storage layer -/

theorem maxRowid_ge (rows : List User) : ∀ m, maxRowid rows = some m → ∀ r ∈ rows, r.ID ≤ m := by
  induction rows with
  | nil => intro m _ r hr; cases hr
  | cons a rest ih =>
    intro m hm r hr
    simp only [maxRowid] at hm
    cases hrest : maxRowid rest with
    | none =>
      rw [hrest] at hm
      simp only [Option.some.injEq] at hm
      cases rest with
      | nil =>
        simp only [List.mem_singleton] at hr
        rw [hr, hm]
      | cons b bs =>
        simp only [maxRowid] at hrest
        cases hb : maxRowid bs <;> rw [hb] at hrest <;> cases hrest
    | some k =>
      rw [hrest] at hm
      simp only [Option.some.injEq] at hm
      rcases List.mem_cons.1 hr with h | h
      · rw [h, ← hm]; exact le_max_left _ _
      · have := ih k hrest r h
        rw [← hm]; exact le_trans this (le_max_right _ _)

theorem maxRowid_mem (rows : List User) : ∀ m, maxRowid rows = some m → ∃ r ∈ rows, r.ID = m := by
  induction rows with
  | nil => intro m hm; cases hm
  | cons a rest ih =>
    intro m hm
    simp only [maxRowid] at hm
    cases hrest : maxRowid rest with
    | none =>
      rw [hrest] at hm
      simp only [Option.some.injEq] at hm
      exact ⟨a, List.mem_cons_self a rest, hm⟩
    | some k =>
      rw [hrest] at hm
      simp only [Option.some.injEq] at hm
      rcases le_total a.ID k with h | h
      · obtain ⟨r, hr, hrk⟩ := ih k hrest
        exact ⟨r, List.mem_cons_of_mem a hr, by rw [hrk, ← hm, max_eq_right h]⟩
      · exact ⟨a, List.mem_cons_self a rest, by rw [← hm, max_eq_left h]⟩

theorem maxRowid_nil_of_none (rows : List User) (h : maxRowid rows = none) : rows = [] := by
  cases rows with
  | nil => rfl
  | cons a rest =>
    simp only [maxRowid] at h
    cases hb : maxRowid rest <;> rw [hb] at h <;> cases h

/-- The insert succeeds on a table that has not used up its keys, and the
key it assigns is above every key of the table. -/
theorem execInsert_ok (db : DB) (name : String) (age : Int)
    (hseq : db.seq < MAX_ROWID) (hrows : ∀ r ∈ db.rows, r.ID < MAX_ROWID) :
    ∃ v : Int,
      execInsert db name age =
        Except.ok ({ rows := db.rows ++ [{ ID := v, Name := name, Age := age }], seq := v }, v) ∧
      (∀ r ∈ db.rows, r.ID < v) ∧ db.seq < v ∧ v ≤ MAX_ROWID := by
  have hne : ¬ db.seq = MAX_ROWID := by omega
  cases hmax : maxRowid db.rows with
  | none =>
    have hnil := maxRowid_nil_of_none db.rows hmax
    by_cases hlt : (1 : Int) < db.seq + 1
    · refine ⟨db.seq + 1, ?_, ?_, by omega, by omega⟩
      · simp [execInsert, hmax, hne, hlt]
      · intro r hr; rw [hnil] at hr; cases hr
    · refine ⟨1, ?_, ?_, by omega, ?_⟩
      · simp [execInsert, hmax, hne, hlt]
      · intro r hr; rw [hnil] at hr; cases hr
      · unfold MAX_ROWID; omega
  | some m =>
    obtain ⟨r0, hr0, hr0m⟩ := maxRowid_mem db.rows m hmax
    have hm : m < MAX_ROWID := by rw [← hr0m]; exact hrows r0 hr0
    have hfull : ¬ m ≥ MAX_ROWID := by omega
    have hge := maxRowid_ge db.rows m hmax
    by_cases hlt : m + 1 < db.seq + 1
    · refine ⟨db.seq + 1, ?_, ?_, by omega, by omega⟩
      · simp [execInsert, hmax, hne, hlt, hfull]
      · intro r hr; have := hge r hr; omega
    · refine ⟨m + 1, ?_, ?_, by omega, by omega⟩
      · simp [execInsert, hmax, hne, hlt, hfull]
      · intro r hr; have := hge r hr; omega

theorem find_none_of_no_match (idEq : IdEq) (rows : List User) (id : GoString)
    (h : ∀ r ∈ rows, idEq id r.ID = false) : rows.find? (fun r => idEq id r.ID) = none := by
  rw [List.find?_eq_none]
  intro r hr
  rw [h r hr]
  exact Bool.false_ne_true

/-! ## The single-row handlers -/

/-- C4, refuted as stated: in the table state whose only row has the largest
key `9223372036854775807`, the insert of `createUser` fails with
`SQLITE_FULL`, and the handler ends in `log.Fatal` instead of a 201
response; the table is left as it was. -/
theorem createUser_fatal_when_keys_exhausted :
    createUser { rows := [{ ID := 9223372036854775807, Name := "Bob", Age := 40 }],
                 seq := 9223372036854775807 }
        (Except.ok { ID := 0, Name := "Alice", Age := 30 }) =
      (Outcome.fatal "database or disk is full",
       { rows := [{ ID := 9223372036854775807, Name := "Bob", Age := 40 }],
         seq := 9223372036854775807 }) := by
  decide

/-- C4, amended: for every table state that has not used up its keys (the
`AUTOINCREMENT` counter and every stored id are below `2^63 - 1`) and every
valid body, `createUser` responds 201 with a user whose name and age are the
body's and whose id is the id the storage assigned, which is above every id
of the table; and `getUser` on the table afterwards, for any path parameter
that the engine matches with exactly that id, responds 200 with data
carrying the same id, name and age. -/
theorem createUser_then_getUser (db : DB) (body : User)
    (hseq : db.seq < MAX_ROWID) (hrows : ∀ r ∈ db.rows, r.ID < MAX_ROWID) :
    ∃ (newId : Int) (db1 : DB),
      execInsert db body.Name body.Age = Except.ok (db1, newId) ∧
      (∀ r ∈ db.rows, r.ID < newId) ∧
      createUser db (Except.ok body) =
        (Outcome.json 201 (Payload.user { ID := newId, Name := body.Name, Age := body.Age }),
         db1) ∧
      db1.rows = db.rows ++ [{ ID := newId, Name := body.Name, Age := body.Age }] ∧
      ∀ (idEq : IdEq) (id : GoString), (∀ j : Int, idEq id j = true ↔ j = newId) →
        getUser idEq db1 id =
          Outcome.json 200 (Payload.success
            { Data := Data.user { ID := newId, Name := body.Name, Age := body.Age },
              Meta := none }) := by
  obtain ⟨v, hins, hfresh, _, _⟩ := execInsert_ok db body.Name body.Age hseq hrows
  refine ⟨v, _, hins, hfresh, ?_, rfl, ?_⟩
  · simp only [createUser, hins]
    rfl
  · intro idEq id hid
    have hold : db.rows.find? (fun r => idEq id r.ID) = none := by
      apply find_none_of_no_match
      intro r hr
      have hlt := hfresh r hr
      cases hb : idEq id r.ID with
      | false => rfl
      | true => have := (hid r.ID).1 hb; omega
    have hnew : idEq id v = true := (hid v).2 rfl
    simp only [getUser, queryRowById, List.find?_append, hold, Option.none_or]
    simp [List.find?, hnew, StatusOK]

/-- A concrete run of create-then-fetch: creating Alice on the table of
fifteen users. -/
theorem createUser_then_getUser_witness :
    ∃ (newId : Int) (db1 : DB),
      execInsert fifteenUsers "Alice" 30 = Except.ok (db1, newId) ∧
      (∀ r ∈ fifteenUsers.rows, r.ID < newId) ∧
      createUser fifteenUsers (Except.ok { ID := 0, Name := "Alice", Age := 30 }) =
        (Outcome.json 201 (Payload.user { ID := newId, Name := "Alice", Age := 30 }), db1) ∧
      db1.rows = fifteenUsers.rows ++ [{ ID := newId, Name := "Alice", Age := 30 }] ∧
      ∀ (idEq : IdEq) (id : GoString), (∀ j : Int, idEq id j = true ↔ j = newId) →
        getUser idEq db1 id =
          Outcome.json 200 (Payload.success
            { Data := Data.user { ID := newId, Name := "Alice", Age := 30 }, Meta := none }) :=
  createUser_then_getUser fifteenUsers { ID := 0, Name := "Alice", Age := 30 }
    (by decide) (by decide)

theorem getUser_no_match (idEq : IdEq) (db : DB) (id : GoString)
    (h : ∀ r ∈ db.rows, idEq id r.ID = false) :
    queryRowById idEq db id = Except.error "sql: no rows in result set" ∧
    getUser idEq db id =
      Outcome.json 404 (Payload.error
        { Error := "User not found", DeveloperDetails := "sql: no rows in result set" }) := by
  have hq : queryRowById idEq db id = Except.error "sql: no rows in result set" := by
    simp only [queryRowById, find_none_of_no_match idEq db.rows id h]
  refine ⟨hq, ?_⟩
  simp only [getUser, hq, StatusNotFound]

/-- C5: for every table state and every id that matches no row, `getUser`
responds 404 with the error envelope whose `error` is `User not found` and
whose `developer_details` is the text of the error of the query
(`sql.ErrNoRows`); it does not respond 200. -/
theorem getUser_not_found (idEq : IdEq) (db : DB) (id : GoString)
    (h : ∀ r ∈ db.rows, idEq id r.ID = false) :
    queryRowById idEq db id = Except.error "sql: no rows in result set" ∧
    getUser idEq db id =
      Outcome.json 404 (Payload.error
        { Error := "User not found", DeveloperDetails := "sql: no rows in result set" }) ∧
    ∀ payload : Payload, getUser idEq db id ≠ Outcome.json 200 payload := by
  obtain ⟨hq, hg⟩ := getUser_no_match idEq db id h
  refine ⟨hq, hg, ?_⟩
  intro payload hcontra
  rw [hg] at hcontra
  cases hcontra

/-- A concrete run of the fetch handler: id `16` on the table of fifteen users. -/
theorem getUser_not_found_witness :
    queryRowById decimalIdEq fifteenUsers (bytes "16") =
      Except.error "sql: no rows in result set" ∧
    getUser decimalIdEq fifteenUsers (bytes "16") =
      Outcome.json 404 (Payload.error
        { Error := "User not found", DeveloperDetails := "sql: no rows in result set" }) ∧
    ∀ payload : Payload,
      getUser decimalIdEq fifteenUsers (bytes "16") ≠ Outcome.json 200 payload :=
  getUser_not_found decimalIdEq fifteenUsers (bytes "16") (by decide)

/-- C6: for every table state, every id that matches no row and every valid
body, `updateUser` responds 200 with an empty body and leaves the table
exactly as it was: no row is created and no row is changed. -/
theorem updateUser_missing_id (idEq : IdEq) (db : DB) (id : GoString) (body : User)
    (h : ∀ r ∈ db.rows, idEq id r.ID = false) :
    updateUser idEq db id (Except.ok body) = (Outcome.noContent 200, db) := by
  have hmap : db.rows.map (fun r =>
      if idEq id r.ID = true then { r with Name := body.Name, Age := body.Age } else r) =
      db.rows := by
    conv_rhs => rw [← List.map_id db.rows]
    apply List.map_congr_left
    intro r hr
    simp [h r hr]
  simp only [updateUser, execUpdate, hmap]
  rfl

/-- A concrete run of the update handler on a missing row: id `16` on the table of fifteen
users. -/
theorem updateUser_missing_id_witness :
    updateUser decimalIdEq fifteenUsers (bytes "16")
        (Except.ok { ID := 0, Name := "Alice", Age := 31 }) =
      (Outcome.noContent 200, fifteenUsers) :=
  updateUser_missing_id decimalIdEq fifteenUsers (bytes "16")
    { ID := 0, Name := "Alice", Age := 31 } (by decide)

/-- C7: for every table state and every id that matches no row, `deleteUser`
responds 200 with an empty body (no error) and leaves the table exactly as
it was. -/
theorem deleteUser_missing_id (idEq : IdEq) (db : DB) (id : GoString)
    (h : ∀ r ∈ db.rows, idEq id r.ID = false) :
    deleteUser idEq db id = (Outcome.noContent 200, db) := by
  have hfil : db.rows.filter (fun r => !idEq id r.ID) = db.rows := by
    rw [List.filter_eq_self]
    intro r hr
    simp [h r hr]
  simp only [deleteUser, execDelete, hfil]
  rfl

/-- A concrete run of the delete handler on a missing row: id `16` on the table of fifteen
users. -/
theorem deleteUser_missing_id_witness :
    deleteUser decimalIdEq fifteenUsers (bytes "16") = (Outcome.noContent 200, fifteenUsers) :=
  deleteUser_missing_id decimalIdEq fifteenUsers (bytes "16") (by decide)

theorem find_updated (idEq : IdEq) (id : GoString) (i : Int) (name : String) (age : Int)
    (hid : ∀ j : Int, idEq id j = true ↔ j = i) (rows : List User)
    (hmem : ∃ r ∈ rows, r.ID = i) :
    (rows.map (fun r => if idEq id r.ID = true then { r with Name := name, Age := age } else r)).find?
        (fun r => idEq id r.ID) = some { ID := i, Name := name, Age := age } := by
  induction rows with
  | nil => obtain ⟨r, hr, _⟩ := hmem; cases hr
  | cons a rest ih =>
    by_cases ha : a.ID = i
    · subst ha
      have hm : idEq id a.ID = true := (hid a.ID).2 rfl
      simp [List.find?, hm]
    · have hm : idEq id a.ID = false := by
        cases hb : idEq id a.ID with
        | false => rfl
        | true => exact absurd ((hid a.ID).1 hb) ha
      obtain ⟨r, hr, hri⟩ := hmem
      have hr' : r ∈ rest := by
        rcases List.mem_cons.1 hr with h | h
        · rw [h] at hri; exact absurd hri ha
        · exact h
      simp only [List.map_cons, hm, Bool.false_eq_true, if_false, List.find?_cons]
      exact ih ⟨r, hr', hri⟩

/-- C8: for every table state containing a row with id `i`, every path
parameter that the engine matches with exactly `i` and every valid body,
`updateUser` responds 200 with an empty body; afterwards `getUser` on the
same parameter returns id `i` with exactly the body's name and age, the row
count is unchanged, and the table is the old one with the rows of id `i`
overwritten in place, so every row with another id is unchanged. -/
theorem updateUser_existing_id (idEq : IdEq) (db : DB) (id : GoString) (i : Int) (body : User)
    (hid : ∀ j : Int, idEq id j = true ↔ j = i) (hmem : ∃ r ∈ db.rows, r.ID = i) :
    (updateUser idEq db id (Except.ok body)).1 = Outcome.noContent 200 ∧
    getUser idEq (updateUser idEq db id (Except.ok body)).2 id =
      Outcome.json 200 (Payload.success
        { Data := Data.user { ID := i, Name := body.Name, Age := body.Age }, Meta := none }) ∧
    (updateUser idEq db id (Except.ok body)).2.rows.length = db.rows.length ∧
    (updateUser idEq db id (Except.ok body)).2.rows =
      db.rows.map (fun r =>
        if r.ID = i then { ID := i, Name := body.Name, Age := body.Age } else r) ∧
    (∀ (k : Nat) (r : User), db.rows[k]? = some r → r.ID ≠ i →
      (updateUser idEq db id (Except.ok body)).2.rows[k]? = some r) ∧
    (updateUser idEq db id (Except.ok body)).2.seq = db.seq := by
  have hrows : (updateUser idEq db id (Except.ok body)).2.rows =
      db.rows.map (fun r =>
        if idEq id r.ID = true then { r with Name := body.Name, Age := body.Age } else r) := rfl
  have hrows2 : (updateUser idEq db id (Except.ok body)).2.rows =
      db.rows.map (fun r =>
        if r.ID = i then { ID := i, Name := body.Name, Age := body.Age } else r) := by
    rw [hrows]
    apply List.map_congr_left
    intro r _
    by_cases hr : r.ID = i
    · subst hr
      simp [(hid r.ID).2 rfl]
    · have : idEq id r.ID = false := by
        cases hb : idEq id r.ID with
        | false => rfl
        | true => exact absurd ((hid r.ID).1 hb) hr
      simp [this, hr]
  refine ⟨rfl, ?_, ?_, hrows2, ?_, rfl⟩
  · simp only [getUser, queryRowById, hrows,
      find_updated idEq id i body.Name body.Age hid db.rows hmem]
    rfl
  · rw [hrows, List.length_map]
  · intro k r hk hr
    rw [hrows2, List.getElem?_map, hk]
    simp [hr]

/-- A concrete run of the update handler on an existing row: id `3` on the table of fifteen
users. -/
theorem updateUser_existing_id_witness :
    (updateUser decimalIdEq fifteenUsers (bytes "3")
        (Except.ok { ID := 0, Name := "Alice", Age := 31 })).1 = Outcome.noContent 200 ∧
    getUser decimalIdEq
        (updateUser decimalIdEq fifteenUsers (bytes "3")
          (Except.ok { ID := 0, Name := "Alice", Age := 31 })).2 (bytes "3") =
      Outcome.json 200 (Payload.success
        { Data := Data.user { ID := 3, Name := "Alice", Age := 31 }, Meta := none }) :=
  have h := updateUser_existing_id decimalIdEq fifteenUsers (bytes "3") 3
    { ID := 0, Name := "Alice", Age := 31 }
    (by
      intro j
      have h3 : numericValue (bytes "3") = some 3 := by decide
      simp only [decimalIdEq, h3, decide_eq_true_eq, Option.some.injEq]
      exact eq_comm)
    (by decide)
  ⟨h.1, h.2.1⟩

theorem length_filter_ne (i : Int) (rows : List User)
    (hnodup : (rows.map User.ID).Nodup) (hmem : ∃ r ∈ rows, r.ID = i) :
    (rows.filter (fun r => decide (r.ID ≠ i))).length + 1 = rows.length := by
  induction rows with
  | nil => obtain ⟨r, hr, _⟩ := hmem; cases hr
  | cons a rest ih =>
    simp only [List.map_cons, List.nodup_cons, List.mem_map, not_exists, not_and] at hnodup
    by_cases ha : a.ID = i
    · have hall : ∀ r ∈ rest, decide (r.ID ≠ i) = true := by
        intro r hr
        have := hnodup.1 r hr
        simp only [decide_eq_true_eq]
        intro h
        exact this (by rw [h, ha])
      have hf : rest.filter (fun r => decide (r.ID ≠ i)) = rest := List.filter_eq_self.2 hall
      have hdrop : decide (a.ID ≠ i) = false := by simp [ha]
      rw [List.filter_cons, hdrop]
      simp only [Bool.false_eq_true, if_false, hf, List.length_cons]
    · obtain ⟨r, hr, hri⟩ := hmem
      have hr' : r ∈ rest := by
        rcases List.mem_cons.1 hr with h | h
        · rw [h] at hri; exact absurd hri ha
        · exact h
      have := ih hnodup.2 ⟨r, hr', hri⟩
      simp only [List.filter_cons, ha, ne_eq, not_false_eq_true, decide_True, if_true,
        List.length_cons]
      simp only [ne_eq] at this
      omega

/-- C9: for every table state (with unique ids) containing a row with id `i`
and every path parameter that the engine matches with exactly `i`,
`deleteUser` responds 200 with an empty body; afterwards `getUser` on the
same parameter responds 404, the row count has dropped by exactly one, and
the table is the old one without the row of id `i`, so every row with
another id is unchanged. -/
theorem deleteUser_existing_id (idEq : IdEq) (db : DB) (id : GoString) (i : Int)
    (hid : ∀ j : Int, idEq id j = true ↔ j = i) (hmem : ∃ r ∈ db.rows, r.ID = i)
    (hnodup : (db.rows.map User.ID).Nodup) :
    (deleteUser idEq db id).1 = Outcome.noContent 200 ∧
    getUser idEq (deleteUser idEq db id).2 id =
      Outcome.json 404 (Payload.error
        { Error := "User not found", DeveloperDetails := "sql: no rows in result set" }) ∧
    (deleteUser idEq db id).2.rows.length + 1 = db.rows.length ∧
    (deleteUser idEq db id).2.rows = db.rows.filter (fun r => decide (r.ID ≠ i)) ∧
    (∀ r : User, r.ID ≠ i → (r ∈ (deleteUser idEq db id).2.rows ↔ r ∈ db.rows)) ∧
    (deleteUser idEq db id).2.seq = db.seq := by
  have hrows : (deleteUser idEq db id).2.rows = db.rows.filter (fun r => !idEq id r.ID) := rfl
  have hfun : (fun r : User => !idEq id r.ID) = (fun r : User => decide (r.ID ≠ i)) := by
    funext r
    by_cases hr : r.ID = i
    · subst hr
      simp [(hid r.ID).2 rfl]
    · have : idEq id r.ID = false := by
        cases hb : idEq id r.ID with
        | false => rfl
        | true => exact absurd ((hid r.ID).1 hb) hr
      simp [this, hr]
  have hrows2 : (deleteUser idEq db id).2.rows = db.rows.filter (fun r => decide (r.ID ≠ i)) := by
    rw [hrows, hfun]
  refine ⟨rfl, ?_, ?_, hrows2, ?_, rfl⟩
  · apply (getUser_no_match idEq (deleteUser idEq db id).2 id ?_).2
    intro r hr
    rw [hrows2, List.mem_filter] at hr
    have hne : r.ID ≠ i := by simpa using hr.2
    cases hb : idEq id r.ID with
    | false => rfl
    | true => exact absurd ((hid r.ID).1 hb) hne
  · rw [hrows2]
    exact length_filter_ne i db.rows hnodup hmem
  · intro r hr
    rw [hrows2, List.mem_filter]
    simp [hr]

/-- A concrete run of the delete handler on an existing row: id `3` on the table of fifteen
users, which has fourteen rows afterwards. -/
theorem deleteUser_existing_id_witness :
    (deleteUser decimalIdEq fifteenUsers (bytes "3")).1 = Outcome.noContent 200 ∧
    getUser decimalIdEq (deleteUser decimalIdEq fifteenUsers (bytes "3")).2 (bytes "3") =
      Outcome.json 404 (Payload.error
        { Error := "User not found", DeveloperDetails := "sql: no rows in result set" }) ∧
    (deleteUser decimalIdEq fifteenUsers (bytes "3")).2.rows.length + 1 =
      fifteenUsers.rows.length :=
  have h := deleteUser_existing_id decimalIdEq fifteenUsers (bytes "3") 3
    (by
      intro j
      have h3 : numericValue (bytes "3") = some 3 := by decide
      simp only [decimalIdEq, h3, decide_eq_true_eq, Option.some.injEq]
      exact eq_comm)
    (by decide) (by decide)
  ⟨h.1, h.2.1, h.2.2.1⟩

end GoExamplesEcho
